import Mathlib

/-
Verification development for the vscode-xsd-treeview schema outline engine
(src/xsdOutline.ts, src/xsdNodeDecorationProvider.ts).

The XML documents handled by the engine are shallowly embedded as ordered
trees of elements.  Each element carries its local name, a flag recording
whether the element lives in a namespace (schemas written with an `xs:`
prefix or a default namespace put every element into the XML-Schema
namespace; a prefix-free, default-namespace-free document yields elements
with no namespace), its attribute list and its ordered children.

The XPath fragment the engine generates is embedded as a small AST
(`Step`, `PathExpr`, `Query`) together with an evaluator that follows
XPath 1.0 semantics for that fragment: a `*[local-name()='n']` test is
namespace-agnostic, whereas an unprefixed raw name test such as
`enumeration` only matches elements that are in no namespace.  Node-sets
are represented as lists of node positions (paths of child indices); for
the step shapes the engine generates, the evaluator produces them in
document order exactly as the xpath library does.
-/

namespace XsdTV

/-- An XML element: local name, whether the element is in a namespace,
attributes in document order, children in document order. -/
inductive XTree : Type where
  | node (localName : String) (inNs : Bool) (attrs : List (String × String)) (children : List XTree)

def XTree.localName : XTree → String
  | .node l _ _ _ => l

def XTree.inNs : XTree → Bool
  | .node _ n _ _ => n

def XTree.attrs : XTree → List (String × String)
  | .node _ _ a _ => a

def XTree.children : XTree → List XTree
  | .node _ _ _ c => c

/-- DOM getAttribute: the value of the first attribute with the given
name, or none when the attribute is absent (xmldom returns null). -/
def XTree.getAttr (t : XTree) (a : String) : Option String :=
  (t.attrs.find? (fun p => p.1 == a)).map (·.2)

/-- JavaScript truthiness of a string-or-null value: null and the empty
string are falsy, every other string is truthy. -/
def truthy : Option String → Bool
  | none => false
  | some s => s != ""

/-- JavaScript `s.split(':').pop() || ''`: the characters after the last
colon (the whole string when it has no colon, and the empty string when
it ends in a colon, exactly as split/pop behaves). -/
def lastPart (s : String) : String :=
  .mk (s.data.foldl (fun acc c => if c = ':' then [] else acc ++ [c]) [])

/-- A node position inside a document: the list of child indices from the
root element down to the node.  `[]` is the root element itself. -/
abbrev Path := List Nat

/-- The node of a document reached by following a path of child indices. -/
def XTree.nodeAt (t : XTree) : Path → Option XTree
  | [] => some t
  | i :: p =>
    match t.children.get? i with
    | some c => c.nodeAt p
    | none => none

mutual

/-- All node positions of a document in document (pre-)order, the root
first. -/
def XTree.allPaths : XTree → List Path
  | .node _ _ _ cs => [] :: allPathsL cs 0

/-- Positions of all nodes in the forest `cs`, whose roots are children
number `i`, `i+1`, ... of some element. -/
def allPathsL : List XTree → Nat → List Path
  | [], _ => []
  | c :: cs, i => (c.allPaths.map (fun q => i :: q)) ++ allPathsL cs (i + 1)

end

/-- Positions of the children of the node at `p` (XPath child axis). -/
def kidsPaths (root : XTree) (p : Path) : List Path :=
  match root.nodeAt p with
  | some t => (List.range t.children.length).map (fun i => p ++ [i])
  | none => []

/-- Positions of the proper descendants of the node at `p`, in document
order (XPath descendant axis, as produced by an `a//b` step). -/
def descPaths (root : XTree) (p : Path) : List Path :=
  match root.nodeAt p with
  | some t => (allPathsL t.children 0).map (fun q => p ++ q)
  | none => []

/-- An XPath 1.0 node test of the fragment the engine generates.
`anyOf ns` is `*[local-name()='n1' or ...]` (with `anyOf []` standing for
a bare `*`), which matches on the local name only, in any namespace.
`raw n` is an unprefixed NameTest such as `enumeration`, which in
XPath 1.0 matches only elements with that local name that are in no
namespace. -/
inductive NTest : Type where
  | anyOf (names : List String)
  | raw (name : String)
deriving DecidableEq

def NTest.matchesT (nt : NTest) (t : XTree) : Bool :=
  match nt with
  | .anyOf names => names.isEmpty || names.contains t.localName
  | .raw n => t.localName == n && !t.inNs

/-- One XPath location step: `desc` selects the descendant axis (a `//`
step) as opposed to the child axis (a `/` step); `attr` is an optional
`[@a='v']` attribute-equality predicate. -/
structure Step : Type where
  desc : Bool
  test : NTest
  attr : Option (String × String)
deriving DecidableEq

/-- A path expression: `absolute` expressions (starting with `/` or `//`)
start from the document node regardless of the context node. -/
structure PathExpr : Type where
  absolute : Bool
  steps : List Step
deriving DecidableEq

/-- A query string handed to the xpath library: either a path expression
of the generated fragment, or a malformed expression whose evaluation
raises an error. -/
inductive Query : Type where
  | expr (e : PathExpr)
  | malformed
deriving DecidableEq

/-- Whether the node satisfies the step's node test and attribute
predicate. -/
def Step.sat (s : Step) (t : XTree) : Bool :=
  s.test.matchesT t &&
    (match s.attr with
     | none => true
     | some (a, v) => t.getAttr a == some v)

/-- The boolean predicate a step imposes on candidate positions. -/
def stepPred (root : XTree) (s : Step) (p : Path) : Bool :=
  match root.nodeAt p with
  | some t => s.sat t
  | none => false

def stepFilter (root : XTree) (s : Step) (ps : List Path) : List Path :=
  ps.filter (stepPred root s)

/-- Candidate positions of a step taken from a context: `none` is the
document node (whose only child is the root element and whose proper
descendants are all elements of the document). -/
def stepTargets (root : XTree) (ctx : Option Path) (desc : Bool) : List Path :=
  match ctx with
  | none => if desc then root.allPaths else [[]]
  | some p => if desc then descPaths root p else kidsPaths root p

def applySteps (root : XTree) (start : List Path) : List Step → List Path
  | [] => start
  | s :: ss =>
    applySteps root
      (start.flatMap (fun p => stepFilter root s (stepTargets root (some p) s.desc))) ss

/-- Evaluation of a path expression over one document from an optional
context element (`none` is the document node). -/
def evalPathExpr (root : XTree) (e : PathExpr) (ctx : Option Path) : List Path :=
  match e.steps with
  | [] => []
  | s :: ss =>
    let c := if e.absolute then none else ctx
    applySteps root (stepFilter root s (stepTargets root c s.desc)) ss

/-- Evaluation of a query; a malformed expression raises (models the
exception the xpath library throws). -/
def evalQueryE (root : XTree) (q : Query) (ctx : Option Path) : Except Unit (List Path) :=
  match q with
  | .malformed => .error ()
  | .expr e => .ok (evalPathExpr root e ctx)

/-- A reference to a node of the loaded document family: document number
(0 is the root document, i+1 the i-th imported document in binding order)
plus the node's position in that document. -/
structure NodeRef : Type where
  docIdx : Nat
  path : Path
deriving DecidableEq

/-- The loaded document family: the root document plus the imported
documents (`importedDocuments`), as namespace/document pairs in binding
order. -/
structure Family : Type where
  root : XTree
  imports : List (String × XTree)

def Family.docAt (f : Family) : Nat → Option XTree
  | 0 => some f.root
  | i + 1 => (f.imports.get? i).map (·.2)

/-- The DOM element a node reference denotes, when the reference is
valid. -/
def Family.refNode (f : Family) (r : NodeRef) : Option XTree :=
  (f.docAt r.docIdx).bind (·.nodeAt r.path)

/-- Attribute access through a node reference. -/
def refAttr (f : Family) (r : NodeRef) (a : String) : Option String :=
  (f.refNode r).bind (·.getAttr a)

/-- Results contributed by the loop over the imported documents in
`selectElements`: each import is evaluated with its document node as
context, whatever context the caller supplied. -/
def scanResultsAux (q : Query) : List (String × XTree) → Nat → Except Unit (List NodeRef)
  | [], _ => .ok []
  | (_, d) :: rest, i =>
    match evalQueryE d q none with
    | .error err => .error err
    | .ok here =>
      match scanResultsAux q rest (i + 1) with
      | .error err => .error err
      | .ok more => .ok (here.map (fun p => ⟨i + 1, p⟩) ++ more)

/-- selectElements before the catch: evaluates the query against the
context (default: the root document), then appends, for every imported
document, the query's result against that document; any error aborts the
whole call (the source's try block encloses both parts). -/
def selectElementsE (f : Family) (q : Query) (ctx : Option NodeRef) : Except Unit (List NodeRef) :=
  let ctxDoc := (ctx.map (·.docIdx)).getD 0
  let mainE : Except Unit (List Path) :=
    match f.docAt ctxDoc with
    | some d => evalQueryE d q (ctx.map (·.path))
    | none => .ok []
  match mainE with
  | .error err => .error err
  | .ok main =>
    match scanResultsAux q f.imports 0 with
    | .error err => .error err
    | .ok imps => .ok (main.map (fun p => (⟨ctxDoc, p⟩ : NodeRef)) ++ imps)

/-- selectElements: any evaluation error is caught and turned into the
empty result. -/
def selectElements (f : Family) (q : Query) (ctx : Option NodeRef) : List NodeRef :=
  match selectElementsE f q ctx with
  | .ok l => l
  | .error _ => []

/-! Queries built by the engine (each mirrors one xpath string literal in
src/xsdOutline.ts). -/

def lnStep (desc : Bool) (names : List String) (attr : Option (String × String)) : Step :=
  ⟨desc, .anyOf names, attr⟩

/-- Query text of the form `//*[local-name()='simpleType'][@name='b']`. -/
def simpleTypeNamedQ (b : String) : Query :=
  .expr ⟨true, [lnStep true ["simpleType"] (some ("name", b))]⟩

/-- Query text of the form `//*[local-name()='complexType'][@name='b']`. -/
def complexTypeNamedQ (b : String) : Query :=
  .expr ⟨true, [lnStep true ["complexType"] (some ("name", b))]⟩

/-- Query text `./*[local-name()='restriction']`. -/
def restrictionQ : Query :=
  .expr ⟨false, [lnStep false ["restriction"] none]⟩

/-- Query text `./*[local-name()='restriction']/*[local-name()='enumeration']`. -/
def restrictionEnumQ : Query :=
  .expr ⟨false, [lnStep false ["restriction"] none, lnStep false ["enumeration"] none]⟩

/-- Query text `./*[local-name()='element']`. -/
def childElementQ : Query :=
  .expr ⟨false, [lnStep false ["element"] none]⟩

/-- Query text `./*[local-name()='complexType']`. -/
def childComplexTypeQ : Query :=
  .expr ⟨false, [lnStep false ["complexType"] none]⟩

/-- Query text `./*`. -/
def childAnyQ : Query :=
  .expr ⟨false, [lnStep false [] none]⟩

/-- Query text `./*[local-name()='sequence' or local-name()='choice' or local-name()='all']`. -/
def groupsQ : Query :=
  .expr ⟨false, [lnStep false ["sequence", "choice", "all"] none]⟩

/-- Query text `./*[local-name()='element' or local-name()='choice']`. -/
def groupMembersQ : Query :=
  .expr ⟨false, [lnStep false ["element", "choice"] none]⟩

/-- Query text `./*[local-name()='complexContent']/*[local-name()='extension']`. -/
def extensionQ : Query :=
  .expr ⟨false, [lnStep false ["complexContent"] none, lnStep false ["extension"] none]⟩

/-- Query text `/*[local-name()='schema']/*[local-name()='element']`. -/
def rootElementsQ : Query :=
  .expr ⟨true, [lnStep false ["schema"] none, lnStep false ["element"] none]⟩

/-- Query text of the form
`//*[local-name()='complexType'][@name='b']/*[local-name()='sequence' or local-name()='choice' or local-name()='all']/*[local-name()='element']`. -/
def typeSeqElemQ (b : String) : Query :=
  .expr ⟨true, [lnStep true ["complexType"] (some ("name", b)),
                lnStep false ["sequence", "choice", "all"] none,
                lnStep false ["element"] none]⟩

/-- Query text of the form
`//*[local-name()='complexType'][@name='b']/*[local-name()='complexContent']/*[local-name()='extension']`. -/
def typeExtensionQ (b : String) : Query :=
  .expr ⟨true, [lnStep true ["complexType"] (some ("name", b)),
                lnStep false ["complexContent"] none,
                lnStep false ["extension"] none]⟩

/-- Query text
`./*[local-name()='complexType']/*[local-name()='sequence' or local-name()='choice' or local-name()='all']/*[local-name()='element']`. -/
def inlineCtGroupElemQ : Query :=
  .expr ⟨false, [lnStep false ["complexType"] none,
                 lnStep false ["sequence", "choice", "all"] none,
                 lnStep false ["element"] none]⟩

/-! Type resolver. -/

/-- The fixed built-in primitive names of resolveBaseType. -/
def builtInTypes : List String :=
  ["string", "anyURI", "dateTime", "date", "token", "ID", "IDREF", "NCName",
   "decimal", "integer", "int", "long", "short", "byte", "float", "double",
   "boolean"]

/-- resolveBaseType, fuel-indexed.  The source function recurses on the
restriction's base name with no cycle guard; `none` here means the
recursion did not bottom out within `fuel` nested calls, so a result of
`none` for every fuel models an infinite recursion.  The inner option is
the function's JavaScript result (`some none` is `undefined`, returned
for a falsy type name). -/
def resolveBaseTypeF (f : Family) : Nat → String → Option (Option String)
  | 0, _ => none
  | fuel + 1, typeName =>
    if typeName == "" then some none
    else
      let bare := lastPart typeName
      if builtInTypes.contains bare then some (some bare)
      else
        match (selectElements f (simpleTypeNamedQ bare) none).head? with
        | some st =>
          match (selectElements f restrictionQ (some st)).head? with
          | some restr =>
            match refAttr f restr "base" with
            | some b => if b == "" then some (some bare) else resolveBaseTypeF f fuel b
            | none => some (some bare)
          | none => some (some bare)
        | none => some (some bare)

/-- isEnumerationType: strips the prefix, looks the bare name up as a
simpleType over the whole document set and tests the first hit for
restriction/enumeration children. -/
def isEnumerationType (f : Family) (typeName : String) : Bool :=
  if typeName == "" then false
  else
    let bare := lastPart typeName
    match (selectElements f (simpleTypeNamedQ bare) none).head? with
    | some st => (selectElements f restrictionEnumQ (some st)).length > 0
    | none => false

/-! Import handling (handleImportElement) and the import-binding map.
The importedDocuments JavaScript Map is modelled as an association list
in insertion order; Map.set on an existing key replaces the value in
place. -/

/-- One import/include directive: its schemaLocation and namespace
attributes, and the document obtained for it (`none` when location
resolution or loading failed, in which case the directive only reports an
error and binds nothing). -/
structure ImportDirective : Type where
  schemaLocation : Option String
  nsAttr : Option String
  loaded : Option XTree

/-- JavaScript Map.set: replace the value of an existing key in place,
else append a new entry. -/
def mapSet (m : List (String × XTree)) (k : String) (v : XTree) : List (String × XTree) :=
  match m with
  | [] => [(k, v)]
  | (k', v') :: rest => if k' == k then (k, v) :: rest else (k', v') :: mapSet rest k v

/-- handleImportElement's effect on the import-binding map: a directive
without a truthy schemaLocation is skipped; a directive whose document
could not be obtained is skipped; otherwise the document is bound to the
directive's namespace string (empty when the attribute is absent). -/
def handleImport (m : List (String × XTree)) (d : ImportDirective) : List (String × XTree) :=
  match d.schemaLocation with
  | none => m
  | some loc =>
    if loc == "" then m
    else
      match d.loaded with
      | some doc => mapSet m (d.nsAttr.getD "") doc
      | none => m

/-- loadImportedSchemas: the directives are processed in document order
starting from the empty map. -/
def processImports (ds : List ImportDirective) : List (String × XTree) :=
  ds.foldl handleImport []

/-- The binding a directive establishes when it succeeds. -/
def effBinding (d : ImportDirective) : Option (String × XTree) :=
  match d.schemaLocation with
  | none => none
  | some loc =>
    if loc == "" then none
    else
      match d.loaded with
      | some doc => some (d.nsAttr.getD "", doc)
      | none => none

/-- The last successful binding for a namespace among a directive list. -/
def lastBindingFor (ds : List ImportDirective) (ns : String) : Option XTree :=
  (((ds.filterMap effBinding).filter (fun p => p.1 == ns)).getLast?).map (·.2)

/-! Decoration provider (src/xsdNodeDecorationProvider.ts). -/

/-- The min character of the occurrence badge
(createOccurrenceDecoration). -/
def minBadgeChar (min : Option String) : String :=
  if truthy min then
    (let m := min.getD ""
     if m != "0" && m != "1" then "N" else m)
  else "1"

/-- The max character of the occurrence badge
(createOccurrenceDecoration). -/
def maxBadgeChar (max : Option String) : String :=
  if truthy max then
    (let m := max.getD ""
     if m == "unbounded" then "∞" else if m != "1" then "N" else m)
  else "1"

/-- The badge string createOccurrenceDecoration produces. -/
def occurrenceBadge (min max : Option String) : String :=
  minBadgeChar min ++ maxBadgeChar max

/-- updateOccurrences' early-return gate: the decoration is stored unless
both attributes are falsy or minOccurs is the string "1" and equals
maxOccurs. -/
def occurrenceStored (min max : Option String) : Bool :=
  !((!truthy min && !truthy max) || (min == some "1" && min == max))

/-- End-to-end occurrence decoration of an element node: getTreeItem only
calls updateOccurrences when one of the attributes is truthy, and
provideFileDecoration then renders the badge of the stored pair. -/
def occurrenceDecoration (min max : Option String) : Option String :=
  if (truthy min || truthy max) && occurrenceStored min max then
    some (occurrenceBadge min max)
  else none

/-! Per-node synthetic identity (getTreeItem). -/

/-- The synthetic node id getTreeItem computes:
`nodeName + '_' + Math.random().toString(36).substr(2, 9)`; the second
argument stands for the 9-character draw from the random source. -/
def nodeIdOf (nodeName randomSuffix : String) : String :=
  nodeName ++ "_" ++ randomSuffix

/-- The decoration-keying resource uri `xsd-node:/` + node id. -/
def treeItemResourceUri (nodeName randomSuffix : String) : String :=
  "xsd-node:/" ++ nodeIdOf nodeName randomSuffix

/-! Node locator (generateXPathForElement / focusElement). -/

/-- JavaScript template stringification of a possibly-null attribute
value (a null interpolates as the string "null"). -/
def jsStr (o : Option String) : String :=
  o.getD "null"

/-- The positions of the proper ancestors of a node, nearest first; the
last entry `[]` is the document's root element (for a non-root node). -/
def ancestorPaths (p : Path) : List Path :=
  (List.range p.length).map (fun k => p.take (p.length - 1 - k))

/-- generateXPathForElement: builds the structural address of the node.
For an enumeration value it anchors at the nearest enclosing named
simpleType and finishes with a raw `enumeration[@value=...]` step; for
any other construct it anchors at the parent when the parent is named, at
a named grandparent otherwise, and falls back to an unanchored
local-name match.  (A reference that does not denote a node yields
`malformed`; the engine only calls the generator on real DOM nodes.) -/
def generateXPathForElement (f : Family) (r : NodeRef) : Query :=
  match f.docAt r.docIdx with
  | none => .malformed
  | some d =>
    match d.nodeAt r.path with
    | none => .malformed
    | some t =>
      let l := t.localName
      if l == "enumeration" then
        let v := jsStr (t.getAttr "value")
        let unanchored : Query := .expr ⟨true, [⟨true, .raw "enumeration", some ("value", v)⟩]⟩
        match (ancestorPaths r.path).find? (fun q =>
            match d.nodeAt q with
            | some a => a.localName == "simpleType"
            | none => false) with
        | some q =>
          let stName := (d.nodeAt q).bind (·.getAttr "name")
          if truthy stName then
            .expr ⟨true, [lnStep true ["simpleType"] (some ("name", stName.getD "")),
                          ⟨true, .raw "enumeration", some ("value", v)⟩]⟩
          else unanchored
        | none => unanchored
      else
        let nameAttr := t.getAttr "name"
        let selfAttr := if truthy nameAttr then some ("name", nameAttr.getD "") else none
        if r.path = [] then
          .expr ⟨true, [lnStep true [l] selfAttr]⟩
        else
          let pp := r.path.dropLast
          match d.nodeAt pp with
          | none => .malformed
          | some pt =>
            let pl := pt.localName
            let pName := pt.getAttr "name"
            if truthy pName then
              .expr ⟨true, [lnStep true [pl] (some ("name", pName.getD "")),
                            lnStep false [l] selfAttr]⟩
            else
              if pp = [] then
                .expr ⟨true, [lnStep true [pl] none, lnStep false [l] selfAttr]⟩
              else
                match d.nodeAt pp.dropLast with
                | none => .malformed
                | some gt =>
                  let gName := gt.getAttr "name"
                  if truthy gName then
                    .expr ⟨true, [lnStep true [gt.localName] (some ("name", gName.getD "")),
                                  lnStep false [pl] none,
                                  lnStep false [l] selfAttr]⟩
                  else
                    .expr ⟨true, [lnStep true [pl] none, lnStep false [l] selfAttr]⟩

/-- The import scan of focusElement's lookup: first imported document
with a non-empty result wins, its first result is returned. -/
def resolveLocAux (e : PathExpr) : List (String × XTree) → Nat → Option NodeRef
  | [], _ => none
  | (_, d) :: rest, i =>
    match evalPathExpr d e none with
    | p :: _ => some ⟨i + 1, p⟩
    | [] => resolveLocAux e rest (i + 1)

/-- focusElement's resolution: evaluate the locator against the root
document, then against each imported document in binding order, and
return the first hit; a malformed locator's evaluation error is caught
and reported as not found. -/
def resolveLocator (f : Family) (q : Query) : Option NodeRef :=
  match q with
  | .malformed => none
  | .expr e =>
    match evalPathExpr f.root e none with
    | p :: _ => some ⟨0, p⟩
    | [] => resolveLocAux e f.imports 0

/-! Tree builder. -/

/-- The view entity wrapping one schema construct (interface XsdNode).
`baseType` is the resolved base type (the fuel-exhausted case of the
resolver collapses to `none` here; no claim depends on that value on a
cyclic schema).  Choice nodes carry no locator (`xpath = none`), exactly
as createChoiceNode sets no xpath field. -/
structure XsdNode : Type where
  element : NodeRef
  name : String
  type : String
  baseType : Option String
  hasChildren : Bool
  xpath : Option Query
deriving DecidableEq

/-- createChoiceNode: a synthetic choice marker node, expandable iff the
choice directly contains an element declaration. -/
def createChoiceNodeF (f : Family) (r : NodeRef) : XsdNode :=
  ⟨r, "<choice>", "", none, (selectElements f childElementQ (some r)).length > 0, none⟩

/-- createNode, fuel-indexed through the base-type resolver. -/
def createNodeF (f : Family) (fuel : Nat) (r : NodeRef) : XsdNode :=
  let name := (refAttr f r "name").getD ""
  let ty := (refAttr f r "type").getD ""
  let baseType := if ty == "" then none else (resolveBaseTypeF f fuel ty).join
  let bare := lastPart ty
  let hasTypeChildren := ty != "" && (selectElements f (typeSeqElemQ bare) none).length > 0
  let hasDirectChildren :=
    (selectElements f childElementQ (some r)).length > 0 ||
    (selectElements f inlineCtGroupElemQ (some r)).length > 0
  let hasExtensionChildren := ty != "" && (selectElements f (typeExtensionQ bare) none).length > 0
  let isEnum := isEnumerationType f ty
  ⟨r, name, ty, baseType,
   hasTypeChildren || hasDirectChildren || hasExtensionChildren || isEnum,
   some (generateXPathForElement f r)⟩

/-- The node(s) a member of a sequence/choice/all group contributes:
element children become nodes, choice children become choice markers. -/
def memberNodeF (f : Family) (fuel : Nat) (el : NodeRef) : List XsdNode :=
  match f.refNode el with
  | some t =>
    if t.localName == "element" then [createNodeF f fuel el]
    else if t.localName == "choice" then [createChoiceNodeF f el]
    else []
  | none => []

/-- getTypeChildren, fuel-indexed: the source recurses through named base
complexTypes with no cycle guard, so the recursion is bounded here by
`fuel`; each unfolding is exactly one pass of the source function.
Pass order: per-extension (base expansion, then the extension's own
groups), then the type's own groups, then direct element/choice
children. -/
def getTypeChildrenF (f : Family) : Nat → NodeRef → List XsdNode
  | 0, _ => []
  | fuel + 1, ct =>
    let extPart := (selectElements f extensionQ (some ct)).flatMap (fun ext =>
      (match refAttr f ext "base" with
       | some b =>
         if b == "" then []
         else
           match (selectElements f (complexTypeNamedQ (lastPart b)) none).head? with
           | some bt => getTypeChildrenF f fuel bt
           | none => []
       | none => []) ++
      (selectElements f groupsQ (some ext)).flatMap (fun g =>
        (selectElements f groupMembersQ (some g)).flatMap (memberNodeF f fuel)))
    let groupPart := (selectElements f groupsQ (some ct)).flatMap (fun g =>
      match f.refNode g with
      | some gt =>
        if gt.localName == "choice" then [createChoiceNodeF f g]
        else (selectElements f groupMembersQ (some g)).flatMap (memberNodeF f fuel)
      | none => [])
    let directPart := (selectElements f groupMembersQ (some ct)).flatMap (memberNodeF f fuel)
    extPart ++ groupPart ++ directPart

/-- getChildNodes: inline complexType expansion first (used when
non-empty), else enumeration leaves (used when non-empty), else named
complexType expansion followed by the scan of the construct's direct
children. -/
def getChildNodesF (f : Family) (fuel : Nat) (parent : NodeRef) : List XsdNode :=
  let pln := match f.refNode parent with | some t => t.localName | none => ""
  let tyName := refAttr f parent "type"
  let inlinePart :=
    if pln == "element" then
      match (selectElements f childComplexTypeQ (some parent)).head? with
      | some ict => getTypeChildrenF f fuel ict
      | none => []
    else []
  if inlinePart ≠ [] then inlinePart
  else
    let enumPart :=
      if pln == "element" && truthy tyName then
        let bare := lastPart (tyName.getD "")
        if isEnumerationType f bare then
          match (selectElements f (simpleTypeNamedQ bare) none).head? with
          | some st =>
            (selectElements f restrictionEnumQ (some st)).map (fun en =>
              (⟨en, (refAttr f en "value").getD "", "", none, false,
                some (generateXPathForElement f en)⟩ : XsdNode))
          | none => []
        else []
      else []
    if enumPart ≠ [] then enumPart
    else
      let typePart :=
        if truthy tyName then
          match (selectElements f (complexTypeNamedQ (lastPart (tyName.getD ""))) none).head? with
          | some te => getTypeChildrenF f fuel te
          | none => []
        else []
      let directPart := (selectElements f childAnyQ (some parent)).flatMap (fun ch =>
        match f.refNode ch with
        | some t =>
          if t.localName == "element" then [createNodeF f fuel ch]
          else if t.localName == "choice" then [createChoiceNodeF f ch]
          else if t.localName == "sequence" || t.localName == "all" then
            (selectElements f groupMembersQ (some ch)).flatMap (memberNodeF f fuel)
          else if t.localName == "complexType" then getTypeChildrenF f fuel ch
          else []
        | none => [])
      typePart ++ directPart

/-- getRootNodes: one node per element declaration under the root
document's schema root. -/
def getRootNodesF (f : Family) (fuel : Nat) : List XsdNode :=
  (selectElements f rootElementsQ none).map (createNodeF f fuel)

/-- getChildren: empty when no schema document is loaded; for a node,
empty when the node's expandability flag is unset, else the node's
children; without a node, the root nodes. -/
def getChildrenF (isXsd : Bool) (f : Option Family) (fuel : Nat) (node : Option XsdNode) :
    List XsdNode :=
  match f with
  | none => []
  | some fam =>
    if !isXsd then []
    else
      match node with
      | some n => if !n.hasChildren then [] else getChildNodesF fam fuel n.element
      | none => getRootNodesF fam fuel

/-! Concrete schema families used as test inputs and counterexamples. -/

/-- A simpleType `T` whose restriction names `T` itself as its base: the
self-referential restriction chain of the specification. -/
def cycST : XTree :=
  .node "simpleType" true [("name", "T")] [.node "restriction" true [("base", "T")] []]

/-- A single-document family containing only the self-restricting
simpleType `T`. -/
def cycFam : Family := ⟨.node "schema" true [] [cycST], []⟩

/-- A family with a two-link restriction chain `T0 -> T1 -> xs:string`. -/
def chainFam : Family :=
  ⟨.node "schema" true [] [
    .node "simpleType" true [("name", "T0")] [.node "restriction" true [("base", "T1")] []],
    .node "simpleType" true [("name", "T1")] [.node "restriction" true [("base", "xs:string")] []]],
   []⟩

/-- The specification's inheritance scenario: element `Order` of type
`B`; complexType `B` extends complexType `A`; `A` declares element `X`
and `B`'s extension declares element `Y`. -/
def famAB : Family :=
  ⟨.node "schema" true [] [
    .node "element" true [("name", "Order"), ("type", "B")] [],
    .node "complexType" true [("name", "A")] [
      .node "sequence" true [] [.node "element" true [("name", "X"), ("type", "xs:string")] []]],
    .node "complexType" true [("name", "B")] [
      .node "complexContent" true [] [
        .node "extension" true [("base", "A")] [
          .node "sequence" true [] [
            .node "element" true [("name", "Y"), ("type", "xs:string")] []]]]]],
   []⟩

/-- A namespaced schema (every element in the XML-Schema namespace, as
produced by an `xs:`-prefixed source) with an enumeration simpleType
`StatusEnum` referenced by element `Status`. -/
def enumFam : Family :=
  ⟨.node "schema" true [] [
    .node "element" true [("name", "Status"), ("type", "StatusEnum")] [],
    .node "simpleType" true [("name", "StatusEnum")] [
      .node "restriction" true [("base", "xs:string")] [
        .node "enumeration" true [("value", "NEW")] [],
        .node "enumeration" true [("value", "DONE")] []]]],
   []⟩

/-- The `NEW` enumeration value inside `enumFam`. -/
def enumRef : NodeRef := ⟨0, [1, 0, 0]⟩

/-- A family whose root document is an empty schema and whose single
imported document defines simpleType `S`. -/
def impDoc : XTree := .node "schema" true [] [.node "simpleType" true [("name", "S")] []]

def f3 : Family := ⟨.node "schema" true [] [], [("N", impDoc)]⟩

/-- A schema defining a user simpleType that shadows the built-in name
`string`, with an enumeration restriction. -/
def shadowFam : Family :=
  ⟨.node "schema" true [] [
    .node "simpleType" true [("name", "string")] [
      .node "restriction" true [("base", "xs:token")] [
        .node "enumeration" true [("value", "A")] []]]],
   []⟩

/-- A schema with a complexType `C` having a choice group as a direct
child. -/
def famChoice : Family :=
  ⟨.node "schema" true [] [
    .node "complexType" true [("name", "C")] [
      .node "choice" true [] [.node "element" true [("name", "P")] []]]],
   []⟩

/-! Claim C1. -/

/-- Claim C1: resolveBaseType must terminate on every restriction chain,
reporting the offending type on a self-referential chain such as `T`
restricting `T`.  The code terminates on finite chains (second conjunct:
the two-link chain resolves to the ultimate base `string`), but it has no
cycle guard: on the self-referential chain the recursion never bottoms
out — no recursion depth (fuel) whatsoever suffices — so the code loops
instead of reporting the offending name.  The claim is right about the
intent (the specification mandates the guard) and the code is wrong. -/
theorem claimC1_resolveBaseType_cycle_diverges :
    resolveBaseTypeF chainFam 10 "tns:T0" = some (some "string") ∧
    ∀ fuel : Nat, resolveBaseTypeF cycFam fuel "T" = none := by
  refine ⟨rfl, ?_⟩
  intro fuel
  induction fuel with
  | zero => rfl
  | succ n ih =>
    have h : resolveBaseTypeF cycFam (n + 1) "T" = resolveBaseTypeF cycFam n "T" := rfl
    rw [h, ih]

/-! Claim C5. -/

/-- The badge character assignment exactly as the claim's general clause
states it: `1` when the attribute is unset or equals the default,
`∞` when maxOccurs is "unbounded", and `N` for any other finite value. -/
def claimC5MinChar (min : Option String) : String :=
  if !truthy min || min == some "1" then "1" else "N"

def claimC5MaxChar (max : Option String) : String :=
  if !truthy max || max == some "1" then "1"
  else if max == some "unbounded" then "∞" else "N"

/-- Claim C5 counterexample: for `minOccurs="0"` the claim's general
badge-character clause demands `N` (0 is neither unset nor the
default 1), but the code keeps the literal `0`, as the claim's own
`"0∞"` example shows: the decoration produced for
minOccurs="0"/maxOccurs="unbounded" is `0∞`, not the `N∞` the general
clause yields. -/
theorem claimC5_counterexample :
    occurrenceDecoration (some "0") (some "unbounded") = some "0∞" ∧
    claimC5MinChar (some "0") ++ claimC5MaxChar (some "unbounded") = "N∞" ∧
    ("0∞" : String) ≠ "N∞" := by
  refine ⟨rfl, rfl, ?_⟩
  decide

/-- The min badge character as the code computes it: the literal value
for "0" and "1", `N` for any other truthy value, `1` when unset. -/
def amendedMinChar (min : Option String) : String :=
  if !truthy min then "1"
  else if min == some "0" then "0"
  else if min == some "1" then "1"
  else "N"

/-- The max badge character as the code computes it: `∞` for
"unbounded", `1` for "1" or unset, `N` otherwise. -/
def amendedMaxChar (max : Option String) : String :=
  if !truthy max then "1"
  else if max == some "unbounded" then "∞"
  else if max == some "1" then "1"
  else "N"

/-- Claim C5 (amended): both attributes absent, or both equal to the
literal default "1", produce no decoration; minOccurs="0" with
maxOccurs="unbounded" produces exactly the badge "0∞"; and in general
the badge is the min character followed by the max character, where the
min character keeps a literal "0" (rather than mapping it to `N`) and is
otherwise `1` for unset/default, `N` for other finite values, and the
max character is `1` for unset/default, `∞` for "unbounded", `N` for
other finite values. -/
theorem claimC5_amended :
    occurrenceDecoration none none = none ∧
    occurrenceDecoration (some "1") (some "1") = none ∧
    occurrenceDecoration (some "0") (some "unbounded") = some "0∞" ∧
    (∀ min max : Option String,
      occurrenceBadge min max = amendedMinChar min ++ amendedMaxChar max) := by
  refine ⟨rfl, rfl, rfl, ?_⟩
  intro min max
  have hmin : minBadgeChar min = amendedMinChar min := by
    cases min with
    | none => rfl
    | some s =>
      by_cases he : s = ""
      · subst he; rfl
      · by_cases h0 : s = "0"
        · subst h0; rfl
        · by_cases h1 : s = "1"
          · subst h1; rfl
          · simp [minBadgeChar, amendedMinChar, truthy, he, h0, h1]
  have hmax : maxBadgeChar max = amendedMaxChar max := by
    cases max with
    | none => rfl
    | some s =>
      by_cases he : s = ""
      · subst he; rfl
      · by_cases hu : s = "unbounded"
        · subst hu; rfl
        · by_cases h1 : s = "1"
          · subst h1; rfl
          · simp [maxBadgeChar, amendedMaxChar, truthy, he, hu, h1]
  rw [occurrenceBadge, hmin, hmax]

/-! Claim C8. -/

/-- Claim C8: the per-node synthetic identity used for decoration keying
is claimed to be deterministic (locator plus positional ordinal), but
getTreeItem derives it from the node's display name plus a fresh
9-character draw from Math.random, so producing the tree item for the
same schema node twice yields different identities whenever the two
random draws differ: the code contradicts the specified determinism. -/
theorem claimC8_identity_depends_on_random_draw :
    treeItemResourceUri "Order" "a1b2c3d4e" ≠ treeItemResourceUri "Order" "x9y8z7w6v" := by
  decide

/-! Claim C9. -/

/-- Claim C9: for every node, if the node's expandability flag
hasChildren is false then getChildren applied to that node returns the
empty list (getChildren short-circuits on the flag before computing any
children). -/
theorem claimC9_not_expandable_no_children (isXsd : Bool) (f : Option Family) (fuel : Nat)
    (n : XsdNode) (h : n.hasChildren = false) :
    getChildrenF isXsd f fuel (some n) = [] := by
  cases f with
  | none => rfl
  | some fam =>
    cases isXsd with
    | false => rfl
    | true => simp [getChildrenF, h]

/-- Witness for C9 at a concrete node: a choice marker over an empty
choice group has its flag unset and expands to nothing. -/
theorem claimC9_witness :
    (⟨⟨0, [0]⟩, "L", "", none, false, none⟩ : XsdNode).hasChildren = false ∧
    getChildrenF true (some famChoice) 3 (some ⟨⟨0, [0]⟩, "L", "", none, false, none⟩) = [] :=
  ⟨rfl, claimC9_not_expandable_no_children true (some famChoice) 3 _ rfl⟩

/-! Claim C7: lemmas about the import-binding map. -/

lemma mem_mapSet_keys (m : List (String × XTree)) (k : String) (v : XTree) (x : String) :
    x ∈ (mapSet m k v).map Prod.fst ↔ x = k ∨ x ∈ m.map Prod.fst := by
  induction m with
  | nil => simp [mapSet]
  | cons hd tl ih =>
    obtain ⟨k', v'⟩ := hd
    by_cases h : k' = k
    · subst h
      simp [mapSet]
      try tauto
    · simp [mapSet, h, ih]
      try tauto

lemma mapSet_keys_nodup (k : String) (v : XTree) :
    ∀ m : List (String × XTree),
      (m.map Prod.fst).Nodup → ((mapSet m k v).map Prod.fst).Nodup := by
  intro m
  induction m with
  | nil => intro _; simp [mapSet]
  | cons hd tl ih =>
    obtain ⟨k', v'⟩ := hd
    intro h
    simp only [List.map_cons, List.nodup_cons] at h
    by_cases hk : k' = k
    · subst hk
      simpa [mapSet] using h
    · simp only [mapSet, beq_iff_eq, hk, if_false, List.map_cons, List.nodup_cons]
      refine ⟨?_, ih h.2⟩
      rw [mem_mapSet_keys]
      rintro (rfl | hm)
      · exact hk rfl
      · exact h.1 hm

lemma handleImport_eq (m : List (String × XTree)) (d : ImportDirective) :
    handleImport m d =
      match effBinding d with
      | some kv => mapSet m kv.1 kv.2
      | none => m := by
  obtain ⟨sl, ns, ld⟩ := d
  cases sl with
  | none => rfl
  | some loc =>
    simp only [handleImport, effBinding]
    by_cases h : loc == ""
    · simp [h]
    · simp only [h]
      cases ld <;> rfl

lemma lookup_mapSet_self (m : List (String × XTree)) (k : String) (v : XTree) :
    List.lookup k (mapSet m k v) = some v := by
  induction m with
  | nil => simp [mapSet, List.lookup]
  | cons hd tl ih =>
    obtain ⟨k', v'⟩ := hd
    by_cases h : k' = k
    · subst h; simp [mapSet, List.lookup]
    · have hb : (k' == k) = false := by simp [h]
      have hb' : (k == k') = false := by simp [Ne.symm h]
      simp [mapSet, List.lookup, hb, hb', ih]

lemma lookup_mapSet_ne (m : List (String × XTree)) (k k' : String) (v : XTree)
    (h : k' ≠ k) :
    List.lookup k' (mapSet m k v) = List.lookup k' m := by
  induction m with
  | nil =>
    have hb : (k' == k) = false := by simp [h]
    simp [mapSet, List.lookup, hb]
  | cons hd tl ih =>
    obtain ⟨ka, va⟩ := hd
    by_cases hk : ka = k
    · subst hk
      have hb : (k' == ka) = false := by simp [h]
      simp [mapSet, List.lookup, hb]
    · have hbk : (ka == k) = false := by simp [hk]
      cases hx : (k' == ka) with
      | true => simp [mapSet, List.lookup, hbk, hx]
      | false => simp [mapSet, List.lookup, hbk, hx, ih]

lemma lookup_foldl_handleImport (ds : List ImportDirective) :
    ∀ (m : List (String × XTree)) (ns : String),
      List.lookup ns (ds.foldl handleImport m) =
        match lastBindingFor ds ns with
        | some doc => some doc
        | none => List.lookup ns m := by
  induction ds with
  | nil => intro m ns; simp [lastBindingFor]
  | cons d rest ih =>
    intro m ns
    rw [List.foldl_cons, ih, handleImport_eq]
    cases he : effBinding d with
    | none =>
      have h1 : lastBindingFor (d :: rest) ns = lastBindingFor rest ns := by
        simp [lastBindingFor, List.filterMap_cons, he]
      rw [h1]
    | some kv =>
      obtain ⟨k, doc⟩ := kv
      by_cases hk : k = ns
      · subst hk
        have h1 : lastBindingFor (d :: rest) k =
            match lastBindingFor rest k with
            | some doc' => some doc'
            | none => some doc := by
          simp only [lastBindingFor, List.filterMap_cons, he, List.filter_cons,
            beq_self_eq_true, if_true]
          rw [List.getLast?_cons]
          cases hg : ((rest.filterMap effBinding).filter (fun p => p.1 == k)).getLast? with
          | none => simp [List.getLastD, hg]
          | some x => simp [List.getLastD, hg]
        rw [h1]
        cases hr : lastBindingFor rest k with
        | none => simp [lookup_mapSet_self]
        | some doc' => simp
      · have h1 : lastBindingFor (d :: rest) ns = lastBindingFor rest ns := by
          simp [lastBindingFor, List.filterMap_cons, he, List.filter_cons, hk]
        rw [h1]
        cases hr : lastBindingFor rest ns with
        | none => simp [lookup_mapSet_ne m k ns doc (Ne.symm hk)]
        | some doc' => simp

lemma foldl_handleImport_keys_nodup (ds : List ImportDirective) :
    ∀ m : List (String × XTree),
      (m.map Prod.fst).Nodup → (((ds.foldl handleImport m)).map Prod.fst).Nodup := by
  induction ds with
  | nil => intro m h; simpa using h
  | cons d rest ih =>
    intro m h
    rw [List.foldl_cons]
    apply ih
    rw [handleImport_eq]
    cases effBinding d with
    | none => exact h
    | some kv => exact mapSet_keys_nodup kv.1 kv.2 m h

/-- Claim C7: after processing any sequence of import/include directives
(starting, as the provider does, from an empty map), the import-binding
map holds at most one binding per namespace string (its key list has no
duplicates), and the binding of each namespace string is exactly the
document of the last successful directive carrying that namespace string
— a later directive with the same namespace (including the empty
namespace used when the attribute is absent) replaces the earlier
binding wholesale. -/
theorem claimC7_import_bindings_last_wins :
    (∀ ds : List ImportDirective, ((processImports ds).map Prod.fst).Nodup) ∧
    (∀ (ds : List ImportDirective) (ns : String),
      List.lookup ns (processImports ds) = lastBindingFor ds ns) := by
  constructor
  · intro ds
    exact foldl_handleImport_keys_nodup ds [] (by simp)
  · intro ds ns
    rw [processImports, lookup_foldl_handleImport]
    cases lastBindingFor ds ns with
    | none => simp [List.lookup]
    | some doc => simp

/-! Structural lemmas about paths and the query evaluator. -/

lemma nodeAt_append (p q : Path) : ∀ t : XTree, t.nodeAt (p ++ q) = (t.nodeAt p).bind (·.nodeAt q) := by
  induction p with
  | nil => intro t; simp [XTree.nodeAt]
  | cons i p ih =>
    intro t
    simp only [List.cons_append, XTree.nodeAt]
    cases t.children.get? i with
    | none => rfl
    | some c => exact ih c

lemma nodeAt_single (s : XTree) (i : Nat) : s.nodeAt [i] = s.children.get? i := by
  simp only [XTree.nodeAt]
  cases s.children.get? i <;> rfl

lemma nodeAt_snoc (d : XTree) (pp : Path) (i : Nat) :
    d.nodeAt (pp ++ [i]) = (d.nodeAt pp).bind (fun s => s.children.get? i) := by
  rw [nodeAt_append]
  cases d.nodeAt pp with
  | none => rfl
  | some s => simp [nodeAt_single]

lemma nil_mem_allPaths (t : XTree) : [] ∈ t.allPaths := by
  cases t with
  | node l n a cs => simp [XTree.allPaths]

lemma mem_allPathsL_of : ∀ (cs : List XTree) (i0 j : Nat) (c : XTree) (q : Path),
    cs.get? j = some c → q ∈ c.allPaths → ((i0 + j) :: q) ∈ allPathsL cs i0 := by
  intro cs
  induction cs with
  | nil => intro i0 j c q h _; simp at h
  | cons c0 cs ih =>
    intro i0 j c q h hq
    cases j with
    | zero =>
      simp only [List.get?] at h
      injection h with h
      subst h
      simp only [allPathsL, Nat.add_zero]
      exact List.mem_append_left _ (List.mem_map.mpr ⟨q, hq, rfl⟩)
    | succ j' =>
      have hmem := ih (i0 + 1) j' c q (by simpa using h) hq
      simp only [allPathsL]
      refine List.mem_append_right _ ?_
      have harith : i0 + (j' + 1) = i0 + 1 + j' := by omega
      rw [harith]
      exact hmem

lemma mem_allPaths_of_valid : ∀ (p : Path) (t : XTree), (t.nodeAt p).isSome → p ∈ t.allPaths := by
  intro p
  induction p with
  | nil => intro t _; exact nil_mem_allPaths t
  | cons i q ih =>
    intro t h
    cases t with
    | node l n a cs =>
      simp only [XTree.nodeAt, XTree.children] at h
      cases hc : List.get? cs i with
      | none => rw [hc] at h; simp at h
      | some c =>
        rw [hc] at h
        have hq := ih c h
        have hmem := mem_allPathsL_of cs 0 i c q hc hq
        simpa [XTree.allPaths] using hmem

lemma mem_kidsPaths_of (d : XTree) (p : Path) (t : XTree) (i : Nat)
    (hd : d.nodeAt p = some t) (hi : i < t.children.length) :
    p ++ [i] ∈ kidsPaths d p := by
  simp only [kidsPaths, hd]
  exact List.mem_map.mpr ⟨i, List.mem_range.mpr hi, rfl⟩

lemma mem_descPaths_of (d : XTree) (p q : Path) (t : XTree)
    (hd : d.nodeAt p = some t) (hq : (t.nodeAt q).isSome) (hne : q ≠ []) :
    p ++ q ∈ descPaths d p := by
  cases q with
  | nil => exact absurd rfl hne
  | cons j q' =>
    cases t with
    | node l n a cs =>
      simp only [XTree.nodeAt, XTree.children] at hq
      cases hc : List.get? cs j with
      | none => rw [hc] at hq; simp at hq
      | some c =>
        rw [hc] at hq
        have hq' := mem_allPaths_of_valid q' c hq
        have hmem := mem_allPathsL_of cs 0 j c q' hc hq'
        simp only [descPaths, hd]
        exact List.mem_map.mpr ⟨j :: q', by simpa using hmem, rfl⟩

lemma mem_eval1 (d : XTree) (abs : Bool) (ctx : Option Path) (s1 : Step) (x : Path)
    (hx : x ∈ stepTargets d (if abs then none else ctx) s1.desc)
    (hs : stepPred d s1 x = true) :
    x ∈ evalPathExpr d ⟨abs, [s1]⟩ ctx := by
  simp only [evalPathExpr, applySteps, stepFilter]
  exact List.mem_filter.mpr ⟨hx, hs⟩

lemma mem_eval2 (d : XTree) (abs : Bool) (ctx : Option Path) (s1 s2 : Step) (p1 x : Path)
    (hp1 : p1 ∈ stepTargets d (if abs then none else ctx) s1.desc)
    (hs1 : stepPred d s1 p1 = true)
    (hx : x ∈ stepTargets d (some p1) s2.desc)
    (hs2 : stepPred d s2 x = true) :
    x ∈ evalPathExpr d ⟨abs, [s1, s2]⟩ ctx := by
  simp only [evalPathExpr, applySteps, stepFilter]
  exact List.mem_flatMap.mpr
    ⟨p1, List.mem_filter.mpr ⟨hp1, hs1⟩, List.mem_filter.mpr ⟨hx, hs2⟩⟩

lemma mem_eval3 (d : XTree) (abs : Bool) (ctx : Option Path) (s1 s2 s3 : Step)
    (p1 p2 x : Path)
    (hp1 : p1 ∈ stepTargets d (if abs then none else ctx) s1.desc)
    (hs1 : stepPred d s1 p1 = true)
    (hp2 : p2 ∈ stepTargets d (some p1) s2.desc)
    (hs2 : stepPred d s2 p2 = true)
    (hx : x ∈ stepTargets d (some p2) s3.desc)
    (hs3 : stepPred d s3 x = true) :
    x ∈ evalPathExpr d ⟨abs, [s1, s2, s3]⟩ ctx := by
  simp only [evalPathExpr, applySteps, stepFilter]
  refine List.mem_flatMap.mpr ⟨p2, ?_, List.mem_filter.mpr ⟨hx, hs3⟩⟩
  exact List.mem_flatMap.mpr
    ⟨p1, List.mem_filter.mpr ⟨hp1, hs1⟩, List.mem_filter.mpr ⟨hp2, hs2⟩⟩

/-! Decomposition of selectElements into its scope part and its part
drawn from the imported documents. -/

/-- The per-import results of one selectElements call, with explicit
document numbering. -/
def scanRefsAux (e : PathExpr) : List (String × XTree) → Nat → List NodeRef
  | [], _ => []
  | (_, d) :: rest, i =>
    (evalPathExpr d e none).map (fun p => ⟨i + 1, p⟩) ++ scanRefsAux e rest (i + 1)

/-- The results selectElements draws from the imported documents,
regardless of the supplied scope. -/
def scanRefs (f : Family) (e : PathExpr) : List NodeRef :=
  scanRefsAux e f.imports 0

/-- The results selectElements draws from the scope itself: the
expression evaluated against the scope's document with the scope as
context node (the root document without a scope). -/
def scopeRefs (f : Family) (e : PathExpr) (ctx : Option NodeRef) : List NodeRef :=
  match f.docAt ((ctx.map (·.docIdx)).getD 0) with
  | some d =>
    (evalPathExpr d e (ctx.map (·.path))).map (fun p => ⟨(ctx.map (·.docIdx)).getD 0, p⟩)
  | none => []

lemma scanResultsAux_expr (e : PathExpr) :
    ∀ (l : List (String × XTree)) (i : Nat),
      scanResultsAux (.expr e) l i = .ok (scanRefsAux e l i) := by
  intro l
  induction l with
  | nil => intro i; rfl
  | cons hd tl ih =>
    intro i
    obtain ⟨ns, d⟩ := hd
    simp [scanResultsAux, scanRefsAux, evalQueryE, ih]

lemma selectElements_expr (f : Family) (e : PathExpr) (ctx : Option NodeRef) :
    selectElements f (.expr e) ctx = scopeRefs f e ctx ++ scanRefs f e := by
  unfold selectElements selectElementsE scopeRefs scanRefs
  cases hd : f.docAt ((ctx.map (·.docIdx)).getD 0) with
  | some d => simp [hd, evalQueryE, scanResultsAux_expr]
  | none => simp [hd, scanResultsAux_expr]

lemma selectElements_malformed (f : Family) (ctx : Option NodeRef) :
    selectElements f .malformed ctx = [] := by
  unfold selectElements selectElementsE
  cases hd : f.docAt ((ctx.map (·.docIdx)).getD 0) with
  | some d => simp [hd, evalQueryE]
  | none =>
    simp only [hd]
    cases f.imports with
    | nil => simp [scanResultsAux]
    | cons hd' tl => obtain ⟨ns, d'⟩ := hd'; simp [scanResultsAux, evalQueryE]

/-- Membership in the scope part of a selectElements result. -/
lemma mem_selectElements_scope (f : Family) (e : PathExpr) (ctx : Option NodeRef)
    (d : XTree) (p : Path)
    (hd : f.docAt ((ctx.map (·.docIdx)).getD 0) = some d)
    (hp : p ∈ evalPathExpr d e (ctx.map (·.path))) :
    (⟨(ctx.map (·.docIdx)).getD 0, p⟩ : NodeRef) ∈ selectElements f (.expr e) ctx := by
  rw [selectElements_expr]
  refine List.mem_append_left _ ?_
  simp only [scopeRefs, hd]
  exact List.mem_map.mpr ⟨p, hp, rfl⟩

/-! Claim C3. -/

/-- Claim C3 counterexample: an explicitly scoped select (scope: the root
document's schema element, which contains no simpleType at all) for
simpleType `S` returns the construct defined in the imported document —
the result of a scoped select does contain constructs drawn from
documents other than the scope's, because selectElements always appends
the query's results over every imported document. -/
theorem claimC3_counterexample :
    selectElements f3 (simpleTypeNamedQ "S") (some ⟨0, []⟩) = [⟨1, [0]⟩] ∧
    (⟨1, [0]⟩ : NodeRef).docIdx ≠ (⟨0, []⟩ : NodeRef).docIdx :=
  ⟨rfl, by decide⟩

/-- Claim C3 (amended): select evaluates the expression against the
supplied scope (default: the root document) and additionally against
every imported document (with the document itself as context),
concatenating scope results first; evaluation failure of a malformed
expression is caught and yields the empty sequence, and an empty match
yields the empty sequence — never a propagated failure. -/
theorem claimC3_select_scope_plus_imports :
    (∀ (f : Family) (ctx : Option NodeRef), selectElements f .malformed ctx = []) ∧
    (∀ (f : Family) (e : PathExpr) (ctx : Option NodeRef),
      selectElements f (.expr e) ctx = scopeRefs f e ctx ++ scanRefs f e) :=
  ⟨selectElements_malformed, selectElements_expr⟩

/-! Claims C4/C10: decomposition of getTypeChildren into its three
passes. -/

/-- Pass (a) of the claim: for each extension of the complexType, the
recursively expanded members of the named base complexType, followed by
the members of the extension's own sequence/choice/all groups. -/
def inheritedPart (f : Family) (fuel : Nat) (ct : NodeRef) : List XsdNode :=
  (selectElements f extensionQ (some ct)).flatMap (fun ext =>
    (match refAttr f ext "base" with
     | some b =>
       if b == "" then []
       else
         match (selectElements f (complexTypeNamedQ (lastPart b)) none).head? with
         | some bt => getTypeChildrenF f fuel bt
         | none => []
     | none => []) ++
    (selectElements f groupsQ (some ext)).flatMap (fun g =>
      (selectElements f groupMembersQ (some g)).flatMap (memberNodeF f fuel)))

/-- Pass (b) of the claim: members reachable through the type's own
sequence/choice/all groups (a choice group becomes one choice marker
node; sequence/all groups contribute their element/choice members). -/
def groupPassPart (f : Family) (fuel : Nat) (ct : NodeRef) : List XsdNode :=
  (selectElements f groupsQ (some ct)).flatMap (fun g =>
    match f.refNode g with
    | some gt =>
      if gt.localName == "choice" then [createChoiceNodeF f g]
      else (selectElements f groupMembersQ (some g)).flatMap (memberNodeF f fuel)
    | none => [])

/-- Pass (c) of the claim: element/choice children declared directly
under the complexType. -/
def directPassPart (f : Family) (fuel : Nat) (ct : NodeRef) : List XsdNode :=
  (selectElements f groupMembersQ (some ct)).flatMap (memberNodeF f fuel)

lemma getTypeChildrenF_succ (f : Family) (fuel : Nat) (ct : NodeRef) :
    getTypeChildrenF f (fuel + 1) ct =
      inheritedPart f fuel ct ++ groupPassPart f fuel ct ++ directPassPart f fuel ct := rfl

/-! Claim C10. -/

/-- Claim C10: for every complexType with a choice group as a direct
child, getTypeChildren emits (at least) two synthetic choice nodes
wrapping that same choice construct — the group-scanning pass sees it
through the sequence/choice/all selector and the final direct-children
pass sees it again through the element/choice selector — so every direct
choice child of a complexType is duplicated in the returned list. -/
theorem claimC10_direct_choice_duplicated (f : Family) (fuel : Nat) (ct : NodeRef)
    (d t ch : XTree) (i : Nat)
    (hd : f.docAt ct.docIdx = some d)
    (ht : d.nodeAt ct.path = some t)
    (hch : t.children.get? i = some ch)
    (hcn : ch.localName = "choice") :
    2 ≤ (getTypeChildrenF f (fuel + 1) ct).count
          (createChoiceNodeF f ⟨ct.docIdx, ct.path ++ [i]⟩) := by
  rw [getTypeChildrenF_succ]
  have hlen : i < t.children.length := by
    by_contra hnot
    rw [List.get?_eq_none.mpr (Nat.le_of_not_lt hnot)] at hch
    exact Option.noConfusion hch
  have hnode : d.nodeAt (ct.path ++ [i]) = some ch := by
    rw [nodeAt_snoc, ht]
    simpa using hch
  have hrefNode : f.refNode ⟨ct.docIdx, ct.path ++ [i]⟩ = some ch := by
    simp [Family.refNode, hd, hnode]
  have hkid : ct.path ++ [i] ∈ kidsPaths d ct.path := mem_kidsPaths_of d ct.path t i ht hlen
  have hpredG : stepPred d (lnStep false ["sequence", "choice", "all"] none)
      (ct.path ++ [i]) = true := by
    simp [stepPred, hnode, Step.sat, lnStep, NTest.matchesT, hcn]
  have hpredM : stepPred d (lnStep false ["element", "choice"] none)
      (ct.path ++ [i]) = true := by
    simp [stepPred, hnode, Step.sat, lnStep, NTest.matchesT, hcn]
  have hmemG : (⟨ct.docIdx, ct.path ++ [i]⟩ : NodeRef) ∈ selectElements f groupsQ (some ct) := by
    refine mem_selectElements_scope f _ (some ct) d (ct.path ++ [i]) hd ?_
    exact mem_eval1 d false (some ct.path) _ _ hkid hpredG
  have hmemM : (⟨ct.docIdx, ct.path ++ [i]⟩ : NodeRef) ∈
      selectElements f groupMembersQ (some ct) := by
    refine mem_selectElements_scope f _ (some ct) d (ct.path ++ [i]) hd ?_
    exact mem_eval1 d false (some ct.path) _ _ hkid hpredM
  have hinG : createChoiceNodeF f ⟨ct.docIdx, ct.path ++ [i]⟩ ∈ groupPassPart f fuel ct := by
    unfold groupPassPart
    refine List.mem_flatMap.mpr ⟨⟨ct.docIdx, ct.path ++ [i]⟩, hmemG, ?_⟩
    rw [hrefNode]
    simp [hcn]
  have hinD : createChoiceNodeF f ⟨ct.docIdx, ct.path ++ [i]⟩ ∈ directPassPart f fuel ct := by
    unfold directPassPart
    refine List.mem_flatMap.mpr ⟨⟨ct.docIdx, ct.path ++ [i]⟩, hmemM, ?_⟩
    simp [memberNodeF, hrefNode, hcn]
  rw [List.count_append, List.count_append]
  have h1 : 0 < (groupPassPart f fuel ct).count (createChoiceNodeF f ⟨ct.docIdx, ct.path ++ [i]⟩) :=
    List.count_pos_iff.mpr hinG
  have h2 : 0 < (directPassPart f fuel ct).count (createChoiceNodeF f ⟨ct.docIdx, ct.path ++ [i]⟩) :=
    List.count_pos_iff.mpr hinD
  omega

/-- Witness for C10: the concrete complexType `C` with a direct choice
child yields the choice marker twice. -/
theorem claimC10_witness :
    2 ≤ (getTypeChildrenF famChoice 3 ⟨0, [0]⟩).count (createChoiceNodeF famChoice ⟨0, [0, 0]⟩) :=
  claimC10_direct_choice_duplicated famChoice 2 ⟨0, [0]⟩ famChoice.root
    (.node "complexType" true [("name", "C")]
      [.node "choice" true [] [.node "element" true [("name", "P")] []]])
    (.node "choice" true [] [.node "element" true [("name", "P")] []])
    0 rfl rfl rfl rfl

/-! Claim C4. -/

/-- Claim C4: getTypeChildren returns its members in the fixed order
inherited-then-grouped-then-ungrouped-direct: first, per extension, the
recursively expanded members of the named base complexType followed by
the extension's own sequence/choice/all members (pass a); then members
reachable through the type's own sequence/choice/all groups (pass b);
then element/choice children declared directly under the type (pass c) —
with no cross-pass merging (plain concatenation).  Consequently, in the
scenario where complexType `B` extends complexType `A`, `A` declares
element `X` and `B` declares element `Y`, the children of an element of
type `B` are exactly `X` then `Y`. -/
theorem claimC4_type_children_order :
    (∀ (f : Family) (fuel : Nat) (ct : NodeRef),
      getTypeChildrenF f (fuel + 1) ct =
        inheritedPart f fuel ct ++ groupPassPart f fuel ct ++ directPassPart f fuel ct) ∧
    (getChildNodesF famAB 5 ⟨0, [0]⟩).map (·.name) = ["X", "Y"] :=
  ⟨getTypeChildrenF_succ, rfl⟩

/-! Claim C6: characterization of the global simpleType lookup. -/

/-- All node references of the family in query order: the root document's
nodes in document order, then each imported document's nodes in binding
order. -/
def allRefsAux : List (String × XTree) → Nat → List NodeRef
  | [], _ => []
  | (_, d) :: rest, i => d.allPaths.map (fun p => ⟨i + 1, p⟩) ++ allRefsAux rest (i + 1)

def allRefs (f : Family) : List NodeRef :=
  f.root.allPaths.map (fun p => ⟨0, p⟩) ++ allRefsAux f.imports 0

/-- Whether a reference's node satisfies a step's test and predicate. -/
def refSat (f : Family) (s : Step) (r : NodeRef) : Bool :=
  match f.refNode r with
  | some t => s.sat t
  | none => false

/-- Spec-side predicate: the reference denotes a simpleType definition
with the given bare name. -/
def refIsSimpleTypeNamed (f : Family) (b : String) (r : NodeRef) : Bool :=
  match f.refNode r with
  | some t => t.localName == "simpleType" && t.getAttr "name" == some b
  | none => false

/-- Spec-side predicate from the claim's words: the type definition's
restriction has at least one enumeration child. -/
def hasEnumRestriction (t : XTree) : Bool :=
  t.children.any (fun c => c.localName == "restriction" &&
    c.children.any (fun e => e.localName == "enumeration"))

/-- Every document of the family is rooted at a schema element (the
classification step only admits schema documents, and the engine
treats the imported documents as schemas). -/
def SchemaFamily (f : Family) : Prop :=
  ∀ i d, f.docAt i = some d → d.localName = "schema"

lemma head?_filter_eq_find? (p : α → Bool) : ∀ l : List α, (l.filter p).head? = l.find? p := by
  intro l
  induction l with
  | nil => rfl
  | cons a l ih =>
    cases hp : p a with
    | true => simp [List.filter_cons, List.find?_cons, hp]
    | false => simp [List.filter_cons, List.find?_cons, hp, ih]

lemma find?_congr' (p q : α → Bool) (h : ∀ x, p x = q x) :
    ∀ l : List α, l.find? p = l.find? q := by
  intro l
  induction l with
  | nil => rfl
  | cons a l ih =>
    simp only [List.find?_cons, h a, ih]

lemma applySteps_nil (root : XTree) (ss : List Step) : applySteps root [] ss = [] := by
  induction ss with
  | nil => rfl
  | cons s ss ih => simp [applySteps, ih]

lemma evalPathExpr_anchor (d : XTree) (s : Step) (hs : s.desc = true) (ctx : Option Path) :
    evalPathExpr d ⟨true, [s]⟩ ctx = d.allPaths.filter (stepPred d s) := by
  simp [evalPathExpr, hs, stepTargets, applySteps, stepFilter]

lemma scanRefsAux_anchor (f : Family) (s : Step) (hs : s.desc = true) :
    ∀ (imps : List (String × XTree)) (i : Nat),
      (∀ j, imps.get? j = f.imports.get? (i + j)) →
      scanRefsAux ⟨true, [s]⟩ imps i = (allRefsAux imps i).filter (refSat f s) := by
  intro imps
  induction imps with
  | nil => intro i _; rfl
  | cons hd rest ih =>
    intro i hsfx
    obtain ⟨ns, d⟩ := hd
    have hdoc : f.docAt (i + 1) = some d := by
      have h0 := (hsfx 0).symm
      rw [Nat.add_zero] at h0
      show (f.imports.get? i).map (·.2) = some d
      rw [h0]
      rfl
    have hrec := ih (i + 1) (fun j => by simpa [Nat.add_assoc, Nat.add_comm 1 j] using hsfx (j + 1))
    simp only [scanRefsAux, allRefsAux, hrec, evalPathExpr_anchor d s hs, List.filter_append]
    congr 1
    rw [List.filter_map]
    congr 1
    apply List.filter_congr
    intro p _
    simp only [Function.comp_apply, refSat, Family.refNode, hdoc, Option.some_bind]
    rfl

lemma selectElements_anchor (f : Family) (s : Step) (hs : s.desc = true) :
    selectElements f (.expr ⟨true, [s]⟩) none = (allRefs f).filter (refSat f s) := by
  rw [selectElements_expr]
  have hscope : scopeRefs f ⟨true, [s]⟩ none =
      (f.root.allPaths.map (fun p => (⟨0, p⟩ : NodeRef))).filter (refSat f s) := by
    have h1 : scopeRefs f ⟨true, [s]⟩ none =
        (evalPathExpr f.root ⟨true, [s]⟩ none).map (fun p => (⟨0, p⟩ : NodeRef)) := rfl
    rw [h1, evalPathExpr_anchor f.root s hs, List.filter_map]
    congr 1
  have himp : scanRefs f ⟨true, [s]⟩ = (allRefsAux f.imports 0).filter (refSat f s) :=
    scanRefsAux_anchor f s hs f.imports 0 (fun j => by simp)
  rw [hscope, himp, allRefs, List.filter_append]

lemma lt_of_get?_eq_some {α : Type _} {l : List α} {n : Nat} {a : α}
    (h : l.get? n = some a) : n < l.length := by
  by_contra hn
  rw [List.get?_eq_none.mpr (Nat.le_of_not_lt hn)] at h
  exact Option.noConfusion h

lemma mem_kidsPaths_elim (d : XTree) (p x : Path) (hx : x ∈ kidsPaths d p) :
    ∃ t i, d.nodeAt p = some t ∧ i < t.children.length ∧ x = p ++ [i] := by
  unfold kidsPaths at hx
  cases hd : d.nodeAt p with
  | none => rw [hd] at hx; simp at hx
  | some t =>
    rw [hd] at hx
    obtain ⟨i, hi, rfl⟩ := List.mem_map.mp hx
    exact ⟨t, i, rfl, List.mem_range.mp hi, rfl⟩

lemma stepPred_snoc (d : XTree) (p : Path) (t c : XTree) (j : Nat)
    (hd : d.nodeAt p = some t) (hc : t.children.get? j = some c) (s : Step) :
    stepPred d s (p ++ [j]) = s.sat c := by
  have hx : d.nodeAt (p ++ [j]) = some c := by
    rw [nodeAt_snoc, hd]
    simpa using hc
  simp [stepPred, hx]

lemma sat_lnStep_single (l0 : String) (b : Bool) (c : XTree) :
    Step.sat (lnStep b [l0] none) c = (c.localName == l0) := by
  simp only [Step.sat, lnStep, NTest.matchesT, List.contains]
  by_cases h : c.localName = l0
  · simp [h]
  · simp [h]

lemma mem_eval2_rel_iff (d : XTree) (s1 s2 : Step) (h1 : s1.desc = false)
    (h2 : s2.desc = false) (p x : Path) :
    x ∈ evalPathExpr d ⟨false, [s1, s2]⟩ (some p) ↔
      ∃ p1, p1 ∈ kidsPaths d p ∧ stepPred d s1 p1 = true ∧
        x ∈ kidsPaths d p1 ∧ stepPred d s2 x = true := by
  simp only [evalPathExpr, applySteps, stepFilter, h1, h2, stepTargets, if_false,
    List.mem_flatMap, List.mem_filter]
  constructor
  · rintro ⟨p1, ⟨hk, hs⟩, hx, hsx⟩
    exact ⟨p1, hk, hs, hx, hsx⟩
  · rintro ⟨p1, hk, hs, hx, hsx⟩
    exact ⟨p1, ⟨hk, hs⟩, hx, hsx⟩

/-- The relative restriction/enumeration query finds something under a
node exactly when some restriction child of that node has an enumeration
child. -/
lemma restrictionEnum_eval_iff (d : XTree) (p : Path) (t : XTree) (hd : d.nodeAt p = some t) :
    (evalPathExpr d ⟨false, [lnStep false ["restriction"] none,
        lnStep false ["enumeration"] none]⟩ (some p) ≠ []) ↔
      hasEnumRestriction t = true := by
  constructor
  · intro hne
    obtain ⟨x, hx⟩ := List.exists_mem_of_ne_nil _ hne
    rw [mem_eval2_rel_iff d _ _ rfl rfl p x] at hx
    obtain ⟨p1, hk1, hs1, hk2, hs2⟩ := hx
    obtain ⟨t', j, ht', hj, rfl⟩ := mem_kidsPaths_elim d p p1 hk1
    rw [hd] at ht'
    injection ht' with ht'
    subst ht'
    have hcg : t.children.get? j = some (t.children.get ⟨j, hj⟩) := List.get?_eq_get hj
    set c := t.children.get ⟨j, hj⟩ with hcdef
    rw [stepPred_snoc d p t c j hd hcg, sat_lnStep_single] at hs1
    obtain ⟨c', k, hc', hk, rfl⟩ := mem_kidsPaths_elim d (p ++ [j]) x hk2
    have hcx : d.nodeAt (p ++ [j]) = some c := by
      rw [nodeAt_snoc, hd]
      simpa using hcg
    rw [hcx] at hc'
    injection hc' with hc'
    subst hc'
    have heg : c.children.get? k = some (c.children.get ⟨k, hk⟩) := List.get?_eq_get hk
    rw [stepPred_snoc d (p ++ [j]) c _ k hcx heg, sat_lnStep_single] at hs2
    rw [hasEnumRestriction, List.any_eq_true]
    refine ⟨c, List.get?_mem hcg, ?_⟩
    rw [Bool.and_eq_true, List.any_eq_true]
    exact ⟨hs1, c.children.get ⟨k, hk⟩, List.get?_mem heg, hs2⟩
  · intro hhe
    rw [hasEnumRestriction, List.any_eq_true] at hhe
    obtain ⟨c, hcmem, hcp⟩ := hhe
    rw [Bool.and_eq_true, List.any_eq_true] at hcp
    obtain ⟨hrestr, e, hemem, henum⟩ := hcp
    obtain ⟨j, hj⟩ := List.mem_iff_get?.mp hcmem
    obtain ⟨k, hk⟩ := List.mem_iff_get?.mp hemem
    have hcx : d.nodeAt (p ++ [j]) = some c := by
      rw [nodeAt_snoc, hd]
      simpa using hj
    apply List.ne_nil_of_mem (a := (p ++ [j]) ++ [k])
    rw [mem_eval2_rel_iff d _ _ rfl rfl]
    refine ⟨p ++ [j], mem_kidsPaths_of d p t j hd (lt_of_get?_eq_some hj), ?_, ?_, ?_⟩
    · rw [stepPred_snoc d p t c j hd hj, sat_lnStep_single]
      exact hrestr
    · exact mem_kidsPaths_of d (p ++ [j]) c k hcx (lt_of_get?_eq_some hk)
    · rw [stepPred_snoc d (p ++ [j]) c e k hcx hk, sat_lnStep_single]
      exact henum

/-- A relative query whose first child step rejects a document's root
element finds nothing when evaluated with that document as context. -/
lemma scanRefsAux_relative_nil (f : Family) (s1 : Step) (ss : List Step)
    (h1 : s1.desc = false)
    (hroot : ∀ i d, f.docAt (i + 1) = some d → s1.sat d = false) :
    ∀ (imps : List (String × XTree)) (i : Nat),
      (∀ j, imps.get? j = f.imports.get? (i + j)) →
      scanRefsAux ⟨false, s1 :: ss⟩ imps i = [] := by
  intro imps
  induction imps with
  | nil => intro i _; rfl
  | cons hd rest ih =>
    intro i hsfx
    obtain ⟨ns, d⟩ := hd
    have hdoc : f.docAt (i + 1) = some d := by
      have h0 := (hsfx 0).symm
      rw [Nat.add_zero] at h0
      show (f.imports.get? i).map (·.2) = some d
      rw [h0]
      rfl
    have heval : evalPathExpr d ⟨false, s1 :: ss⟩ none = [] := by
      have h0 : evalPathExpr d ⟨false, s1 :: ss⟩ none =
          applySteps d (stepFilter d s1 (stepTargets d none s1.desc)) ss := rfl
      rw [h0, h1]
      have hst : stepTargets d none false = [[]] := rfl
      rw [hst]
      have hf : stepFilter d s1 [[]] = [] := by
        simp [stepFilter, stepPred, XTree.nodeAt, hroot i d hdoc]
      rw [hf, applySteps_nil]
    have hrec := ih (i + 1) (fun j => by
      simpa [Nat.add_assoc, Nat.add_comm 1 j] using hsfx (j + 1))
    simp [scanRefsAux, heval, hrec]

/-- Claim C6 counterexample: isEnumerationType has no built-in
special-casing, so the built-in primitive name `string`, shadowed by a
user simpleType definition with an enumeration restriction, reports
true, while the claim demands false for every built-in primitive
name. -/
theorem claimC6_counterexample :
    isEnumerationType shadowFam "string" = true ∧ "string" ∈ builtInTypes :=
  ⟨rfl, by decide⟩

/-- Claim C6 (amended): after stripping any namespace prefix from T,
isEnumerationType(T) is true iff the first simpleType definition named T
in query order (root document in document order, then imports in binding
order) has a restriction with at least one enumeration child.  Built-in
primitive names receive no special-casing: they report false exactly
when no user simpleType definition shadows them. -/
theorem claimC6_isEnumerationType_first_match (f : Family) (T : String)
    (hWF : SchemaFamily f) (hT : T ≠ "") :
    isEnumerationType f T = true ↔
      ∃ r t, (allRefs f).find? (refIsSimpleTypeNamed f (lastPart T)) = some r ∧
        f.refNode r = some t ∧ hasEnumRestriction t = true := by
  have hbeq : (T == "") = false := by simpa using hT
  have hsel : (selectElements f (simpleTypeNamedQ (lastPart T)) none).head? =
      (allRefs f).find? (refIsSimpleTypeNamed f (lastPart T)) := by
    rw [show simpleTypeNamedQ (lastPart T) =
      .expr ⟨true, [lnStep true ["simpleType"] (some ("name", lastPart T))]⟩ from rfl]
    rw [selectElements_anchor f _ rfl, head?_filter_eq_find?]
    apply find?_congr'
    intro r
    simp only [refSat, refIsSimpleTypeNamed, Step.sat, lnStep, NTest.matchesT]
    cases f.refNode r with
    | none => rfl
    | some t =>
      simp only [List.contains]
      by_cases h : t.localName = "simpleType"
      · simp [h]
      · simp [h]
  rw [show isEnumerationType f T =
      (if (T == "") = true then false
       else match (selectElements f (simpleTypeNamedQ (lastPart T)) none).head? with
        | some st => decide ((selectElements f restrictionEnumQ (some st)).length > 0)
        | none => false) from rfl]
  rw [hbeq]
  simp only [Bool.false_eq_true, if_false]
  rw [hsel]
  cases hfind : (allRefs f).find? (refIsSimpleTypeNamed f (lastPart T)) with
  | none =>
    simp only [Bool.false_eq_true, false_iff]
    rintro ⟨r, t, hsome, _⟩
    exact Option.noConfusion hsome
  | some st =>
    have hpred := List.find?_some hfind
    cases hrn : f.refNode st with
    | none => rw [refIsSimpleTypeNamed, hrn] at hpred; exact Bool.noConfusion hpred
    | some t =>
      have hdoc : ∃ dst, f.docAt st.docIdx = some dst ∧ dst.nodeAt st.path = some t := by
        rw [Family.refNode] at hrn
        cases hds : f.docAt st.docIdx with
        | none => rw [hds] at hrn; exact Option.noConfusion hrn
        | some dst => rw [hds] at hrn; exact ⟨dst, rfl, hrn⟩
      obtain ⟨dst, hds, hnt⟩ := hdoc
      have hscope : scopeRefs f ⟨false, [lnStep false ["restriction"] none,
          lnStep false ["enumeration"] none]⟩ (some st) =
          (evalPathExpr dst ⟨false, [lnStep false ["restriction"] none,
            lnStep false ["enumeration"] none]⟩ (some st.path)).map
            (fun p => (⟨st.docIdx, p⟩ : NodeRef)) := by
        have hkey : ((some st).map (fun x : NodeRef => x.docIdx)).getD 0 = st.docIdx := rfl
        simp only [scopeRefs, hkey, hds]
        rfl
      have hroot : ∀ i d, f.docAt (i + 1) = some d →
          Step.sat (lnStep false ["restriction"] none) d = false := by
        intro i d hd
        rw [sat_lnStep_single, hWF (i + 1) d hd]
        rfl
      have himp : scanRefs f ⟨false, [lnStep false ["restriction"] none,
          lnStep false ["enumeration"] none]⟩ = [] :=
        scanRefsAux_relative_nil f _ _ rfl hroot f.imports 0 (fun j => by simp)
      have hlen : selectElements f restrictionEnumQ (some st) =
          (evalPathExpr dst ⟨false, [lnStep false ["restriction"] none,
            lnStep false ["enumeration"] none]⟩ (some st.path)).map
            (fun p => (⟨st.docIdx, p⟩ : NodeRef)) := by
        rw [show restrictionEnumQ = .expr ⟨false, [lnStep false ["restriction"] none,
          lnStep false ["enumeration"] none]⟩ from rfl]
        rw [selectElements_expr, hscope, himp, List.append_nil]
      show decide ((selectElements f restrictionEnumQ (some st)).length > 0) = true ↔
        ∃ r t, some st = some r ∧ f.refNode r = some t ∧ hasEnumRestriction t = true
      rw [hlen]
      simp only [decide_eq_true_eq, List.length_pos, ne_eq, List.map_eq_nil_iff]
      constructor
      · intro hne
        exact ⟨st, t, rfl, hrn, (restrictionEnum_eval_iff dst st.path t hnt).mp hne⟩
      · rintro ⟨r, t', hsome, hrn', hhe⟩
        injection hsome with hsome
        subst hsome
        rw [hrn] at hrn'
        injection hrn' with hrn'
        subst hrn'
        exact (restrictionEnum_eval_iff dst st.path t hnt).mpr hhe

/-- Witness for amended C6 at the shadowing family. -/
theorem claimC6_witness :
    isEnumerationType shadowFam "string" = true := by
  have hWF : SchemaFamily shadowFam := by
    intro i d hd
    cases i with
    | zero =>
      injection hd with hd
      rw [← hd]
      rfl
    | succ n => simp [Family.docAt, shadowFam] at hd
  refine (claimC6_isEnumerationType_first_match shadowFam "string" hWF (by decide)).mpr ?_
  exact ⟨⟨0, [0]⟩, _, rfl, rfl, rfl⟩

/-! Claim C2: round-trip of the node locator. -/

/-- The node reference `r` matches the locator expression `e` in its own
document under the resolver's evaluation (document-node context). -/
def locMatch (f : Family) (e : PathExpr) (r : NodeRef) : Prop :=
  ∃ d, f.docAt r.docIdx = some d ∧ r.path ∈ evalPathExpr d e none

/-- Matching against a full locator query; a malformed locator matches
nothing. -/
def locMatchQ (f : Family) (q : Query) (r : NodeRef) : Prop :=
  match q with
  | .malformed => False
  | .expr e => locMatch f e r

lemma stepPred_eq_sat (d : XTree) (s : Step) (x : Path) (t : XTree)
    (hx : d.nodeAt x = some t) : stepPred d s x = s.sat t := by
  simp [stepPred, hx]

lemma resolveLocAux_unique (f : Family) (e : PathExpr) (r : NodeRef)
    (huniq : ∀ r', locMatch f e r' → r' = r) :
    ∀ (imps : List (String × XTree)) (i0 : Nat),
      (∀ j, imps.get? j = f.imports.get? (i0 + j)) →
      ∀ (k : Nat) (dk : String × XTree),
        imps.get? k = some dk →
        r.docIdx = i0 + 1 + k →
        r.path ∈ evalPathExpr dk.2 e none →
        resolveLocAux e imps i0 = some r := by
  intro imps
  induction imps with
  | nil =>
    intro i0 _ k dk hk _ _
    simp at hk
  | cons hd rest ih =>
    intro i0 hsfx k dk hk hidx hmem
    obtain ⟨ns, d0⟩ := hd
    have hdoc0 : f.docAt (i0 + 1) = some d0 := by
      have h0 := (hsfx 0).symm
      rw [Nat.add_zero] at h0
      show (f.imports.get? i0).map (·.2) = some d0
      rw [h0]
      rfl
    cases k with
    | zero =>
      have hdk : dk = (ns, d0) := by
        simp only [List.get?] at hk
        exact (Option.some.inj hk).symm
      subst hdk
      show (match evalPathExpr d0 e none with
        | p :: _ => some (⟨i0 + 1, p⟩ : NodeRef)
        | [] => resolveLocAux e rest (i0 + 1)) = some r
      cases hev : evalPathExpr d0 e none with
      | nil => rw [hev] at hmem; simp at hmem
      | cons p ps =>
        have hm : locMatch f e ⟨i0 + 1, p⟩ :=
          ⟨d0, hdoc0, by rw [hev]; exact List.mem_cons_self p ps⟩
        show some (⟨i0 + 1, p⟩ : NodeRef) = some r
        rw [huniq _ hm]
    | succ k' =>
      show (match evalPathExpr d0 e none with
        | p :: _ => some (⟨i0 + 1, p⟩ : NodeRef)
        | [] => resolveLocAux e rest (i0 + 1)) = some r
      cases hev : evalPathExpr d0 e none with
      | cons p ps =>
        have hm : locMatch f e ⟨i0 + 1, p⟩ :=
          ⟨d0, hdoc0, by rw [hev]; exact List.mem_cons_self p ps⟩
        have heq := huniq _ hm
        have hdx : r.docIdx = i0 + 1 := by rw [← heq]
        omega
      | nil =>
        refine ih (i0 + 1)
          (fun j => by simpa [Nat.add_assoc, Nat.add_comm 1 j] using hsfx (j + 1))
          k' dk (by simpa using hk) (by omega) hmem

lemma resolveLocator_unique (f : Family) (e : PathExpr) (r : NodeRef)
    (hself : locMatch f e r)
    (huniq : ∀ r', locMatch f e r' → r' = r) :
    resolveLocator f (.expr e) = some r := by
  obtain ⟨d, hd, hmem⟩ := hself
  show (match evalPathExpr f.root e none with
    | p :: _ => some (⟨0, p⟩ : NodeRef)
    | [] => resolveLocAux e f.imports 0) = some r
  cases hev : evalPathExpr f.root e none with
  | cons p ps =>
    have hm : locMatch f e ⟨0, p⟩ :=
      ⟨f.root, rfl, by rw [hev]; exact List.mem_cons_self p ps⟩
    show some (⟨0, p⟩ : NodeRef) = some r
    rw [huniq _ hm]
  | nil =>
    cases hr : r.docIdx with
    | zero =>
      rw [hr] at hd
      have hdr : f.root = d := by
        have : some f.root = some d := hd
        exact Option.some.inj this
      rw [← hdr, hev] at hmem
      simp at hmem
    | succ n =>
      rw [hr] at hd
      cases hg : f.imports.get? n with
      | none =>
        have : (f.imports.get? n).map (·.2) = some d := hd
        rw [hg] at this
        exact Option.noConfusion this
      | some pr =>
        have hd2 : pr.2 = d := by
          have : (f.imports.get? n).map (·.2) = some d := hd
          rw [hg] at this
          exact Option.some.inj this
        exact resolveLocAux_unique f e r huniq f.imports 0 (fun j => by simp) n pr hg
          (by omega) (by rw [hd2]; exact hmem)

lemma sat_self_step (t : XTree) (b : Bool) :
    Step.sat ⟨b, .anyOf [t.localName],
      if truthy (t.getAttr "name") then some ("name", (t.getAttr "name").getD "") else none⟩ t =
      true := by
  cases hna : t.getAttr "name" with
  | none => simp [Step.sat, NTest.matchesT, List.contains, truthy, hna]
  | some s =>
    by_cases hs : s = ""
    · subst hs; simp [Step.sat, NTest.matchesT, List.contains, truthy, hna]
    · simp [Step.sat, NTest.matchesT, List.contains, truthy, hna, hs]

lemma sat_named_anchor (t : XTree) (b : Bool) (hn : truthy (t.getAttr "name") = true) :
    Step.sat ⟨b, .anyOf [t.localName], some ("name", (t.getAttr "name").getD "")⟩ t = true := by
  cases hna : t.getAttr "name" with
  | none => rw [hna] at hn; simp [truthy] at hn
  | some s => simp [Step.sat, NTest.matchesT, List.contains, hna]

lemma sat_ln_self (t : XTree) (b : Bool) : Step.sat (lnStep b [t.localName] none) t = true := by
  rw [sat_lnStep_single]
  simp

lemma nodeAt_isSome_of_append (d : XTree) (a b : Path)
    (h : (d.nodeAt (a ++ b)).isSome) : (d.nodeAt a).isSome := by
  rw [nodeAt_append] at h
  cases ha : d.nodeAt a with
  | none => rw [ha] at h; simp at h
  | some s => simp

/-- The generated locator of a non-enumeration construct evaluates, in
the construct's own document, to a node-set containing the construct:
the anchor the generator picks (named parent, named grandparent, or the
unanchored fallback) is satisfied by the construct's actual ancestors,
and the final step is satisfied by the construct itself. -/
lemma gen_nonenum_self_match (f : Family) (r : NodeRef) (d t : XTree)
    (hd : f.docAt r.docIdx = some d) (ht : d.nodeAt r.path = some t)
    (hne : t.localName ≠ "enumeration") :
    ∃ e : PathExpr, generateXPathForElement f r = .expr e ∧
      r.path ∈ evalPathExpr d e none := by
  have hbeq : (t.localName == "enumeration") = false := by simpa using hne
  by_cases hroot : r.path = []
  · have htd : t = d := by
      rw [hroot] at ht
      exact (Option.some.inj ht).symm
    refine ⟨⟨true, [⟨true, .anyOf [t.localName],
      if truthy (t.getAttr "name") then some ("name", (t.getAttr "name").getD "") else none⟩]⟩,
      ?_, ?_⟩
    · simp only [generateXPathForElement, hd, ht, hbeq, Bool.false_eq_true, if_false,
        if_pos hroot, lnStep, if_true]
    · rw [hroot]
      refine mem_eval1 d true none _ [] (nil_mem_allPaths d) ?_
      rw [stepPred_eq_sat d _ [] d rfl, ← htd]
      exact sat_self_step t true
  · have hsplit : r.path.dropLast ++ [r.path.getLast hroot] = r.path :=
      List.dropLast_append_getLast hroot
    have hvalid : (d.nodeAt (r.path.dropLast ++ [r.path.getLast hroot])).isSome := by
      rw [hsplit, ht]; rfl
    have hptE : ∃ pt, d.nodeAt r.path.dropLast = some pt := by
      have hs := nodeAt_isSome_of_append d _ _ hvalid
      cases hq : d.nodeAt r.path.dropLast with
      | none => rw [hq] at hs; simp at hs
      | some pt => exact ⟨pt, rfl⟩
    obtain ⟨pt, hpt⟩ := hptE
    have hgti : pt.children.get? (r.path.getLast hroot) = some t := by
      have h1 : d.nodeAt (r.path.dropLast ++ [r.path.getLast hroot]) = some t := by
        rw [hsplit]; exact ht
      rw [nodeAt_snoc, hpt] at h1
      simpa using h1
    have hilen : r.path.getLast hroot < pt.children.length := lt_of_get?_eq_some hgti
    have hkid : r.path ∈ kidsPaths d r.path.dropLast := by
      have h0 := mem_kidsPaths_of d r.path.dropLast pt (r.path.getLast hroot) hpt hilen
      rwa [hsplit] at h0
    have hppmem : r.path.dropLast ∈ d.allPaths :=
      mem_allPaths_of_valid _ d (by rw [hpt]; rfl)
    have hselfpred : stepPred d ⟨false, .anyOf [t.localName],
        if truthy (t.getAttr "name") then some ("name", (t.getAttr "name").getD "") else none⟩
        r.path = true := by
      rw [stepPred_eq_sat d _ r.path t ht]
      exact sat_self_step t false
    by_cases hpn : truthy (pt.getAttr "name") = true
    · refine ⟨⟨true, [⟨true, .anyOf [pt.localName], some ("name", (pt.getAttr "name").getD "")⟩,
        ⟨false, .anyOf [t.localName], if truthy (t.getAttr "name") then
          some ("name", (t.getAttr "name").getD "") else none⟩]⟩, ?_, ?_⟩
      · simp only [generateXPathForElement, hd, ht, hbeq, Bool.false_eq_true, if_false,
          if_neg hroot, hpt, hpn, lnStep, if_true]
      · refine mem_eval2 d true none _ _ r.path.dropLast r.path hppmem ?_ hkid hselfpred
        rw [stepPred_eq_sat d _ _ pt hpt]
        exact sat_named_anchor pt true hpn
    · have hpn' : truthy (pt.getAttr "name") = false := by
        revert hpn
        cases truthy (pt.getAttr "name") <;> simp
      have hmem24 : r.path ∈ evalPathExpr d ⟨true, [⟨true, .anyOf [pt.localName], none⟩,
          ⟨false, .anyOf [t.localName], if truthy (t.getAttr "name") then
            some ("name", (t.getAttr "name").getD "") else none⟩]⟩ none := by
        refine mem_eval2 d true none _ _ r.path.dropLast r.path hppmem ?_ hkid hselfpred
        rw [stepPred_eq_sat d _ _ pt hpt]
        exact sat_ln_self pt true
      by_cases hpp0 : r.path.dropLast = []
      · refine ⟨_, ?_, hmem24⟩
        simp only [generateXPathForElement, hd, ht, hbeq, Bool.false_eq_true, if_false,
          if_neg hroot, hpt, hpn', lnStep, if_pos hpp0, if_true]
      · have hsplit2 : r.path.dropLast.dropLast ++ [r.path.dropLast.getLast hpp0] =
            r.path.dropLast := List.dropLast_append_getLast hpp0
        have hgpE : ∃ gt, d.nodeAt r.path.dropLast.dropLast = some gt := by
          have hs0 : (d.nodeAt r.path.dropLast).isSome := by rw [hpt]; rfl
          rw [← hsplit2] at hs0
          have hs := nodeAt_isSome_of_append d _ _ hs0
          cases hq : d.nodeAt r.path.dropLast.dropLast with
          | none => rw [hq] at hs; simp at hs
          | some gt => exact ⟨gt, rfl⟩
        obtain ⟨gt, hgt⟩ := hgpE
        by_cases hgn : truthy (gt.getAttr "name") = true
        · have hgj : gt.children.get? (r.path.dropLast.getLast hpp0) = some pt := by
            have h1 : d.nodeAt (r.path.dropLast.dropLast ++ [r.path.dropLast.getLast hpp0]) =
                some pt := by rw [hsplit2]; exact hpt
            rw [nodeAt_snoc, hgt] at h1
            simpa using h1
          refine ⟨⟨true, [⟨true, .anyOf [gt.localName],
            some ("name", (gt.getAttr "name").getD "")⟩,
            ⟨false, .anyOf [pt.localName], none⟩,
            ⟨false, .anyOf [t.localName], if truthy (t.getAttr "name") then
              some ("name", (t.getAttr "name").getD "") else none⟩]⟩, ?_, ?_⟩
          · simp only [generateXPathForElement, hd, ht, hbeq, Bool.false_eq_true, if_false,
              if_neg hroot, hpt, hpn', lnStep, if_neg hpp0, hgt, hgn, if_true]
          · refine mem_eval3 d true none _ _ _ r.path.dropLast.dropLast r.path.dropLast r.path
              (mem_allPaths_of_valid _ d (by rw [hgt]; rfl)) ?_ ?_ ?_ hkid hselfpred
            · rw [stepPred_eq_sat d _ _ gt hgt]
              exact sat_named_anchor gt true hgn
            · have h0 := mem_kidsPaths_of d r.path.dropLast.dropLast gt
                (r.path.dropLast.getLast hpp0) hgt (lt_of_get?_eq_some hgj)
              rwa [hsplit2] at h0
            · rw [stepPred_eq_sat d _ _ pt hpt]
              exact sat_ln_self pt false
        · have hgn' : truthy (gt.getAttr "name") = false := by
            revert hgn
            cases truthy (gt.getAttr "name") <;> simp
          refine ⟨_, ?_, hmem24⟩
          simp only [generateXPathForElement, hd, ht, hbeq, Bool.false_eq_true, if_false,
            if_neg hroot, hpt, hpn', lnStep, if_neg hpp0, hgt, hgn', Bool.true_eq_false]

/-- Claim C2 counterexample: the enumeration-value leaf `NEW` is a
construct the tree produces (first child of the `Status` element), yet
resolving its generated locator finds nothing: in a schema whose
elements are in the XML-Schema namespace (any `xs:`-prefixed source),
the locator's raw `enumeration[@value='NEW']` step is a
namespace-sensitive XPath name test that matches no element, so
resolve(generate(c)) is not c but a resolution failure. -/
theorem claimC2_counterexample :
    (getChildNodesF enumFam 5 ⟨0, [0]⟩).map (·.element) = [enumRef, ⟨0, [1, 0, 1]⟩] ∧
    enumFam.refNode enumRef = some (.node "enumeration" true [("value", "NEW")] []) ∧
    resolveLocator enumFam (generateXPathForElement enumFam enumRef) = none :=
  ⟨rfl, rfl, rfl⟩

/-- Claim C2 (amended): for every construct other than an
enumeration-value leaf, resolving the generated locator yields the
construct itself whenever the schema family's structural names are
unique — formalized as: no other node of any loaded document matches the
generated locator.  (For enumeration leaves in a namespaced schema the
round-trip fails; see the counterexample.) -/
theorem claimC2_roundtrip_locator (f : Family) (r : NodeRef) (d t : XTree)
    (hd : f.docAt r.docIdx = some d) (ht : d.nodeAt r.path = some t)
    (hne : t.localName ≠ "enumeration")
    (huniq : ∀ r', locMatchQ f (generateXPathForElement f r) r' → r' = r) :
    resolveLocator f (generateXPathForElement f r) = some r := by
  obtain ⟨e, hgen, hmem⟩ := gen_nonenum_self_match f r d t hd ht hne
  rw [hgen] at huniq ⊢
  exact resolveLocator_unique f e r ⟨d, hd, hmem⟩ (fun r' hm => huniq r' hm)

/-- Witness for amended C2: the element `X` declared inside the sequence
of complexType `A` (named grandparent anchor) round-trips through its
generated locator. -/
theorem claimC2_witness :
    resolveLocator famAB (generateXPathForElement famAB ⟨0, [1, 0, 0]⟩) = some ⟨0, [1, 0, 0]⟩ := by
  apply claimC2_roundtrip_locator famAB ⟨0, [1, 0, 0]⟩ famAB.root
    (.node "element" true [("name", "X"), ("type", "xs:string")] []) rfl rfl (by decide)
  intro r' hm
  have hg : generateXPathForElement famAB ⟨0, [1, 0, 0]⟩ =
      .expr ⟨true, [⟨true, .anyOf ["complexType"], some ("name", "A")⟩,
        ⟨false, .anyOf ["sequence"], none⟩,
        ⟨false, .anyOf ["element"], some ("name", "X")⟩]⟩ := rfl
  rw [hg] at hm
  obtain ⟨dd, hdd, hpp⟩ := hm
  obtain ⟨di, pi⟩ := r'
  cases di with
  | zero =>
    have hdr : famAB.root = dd := by
      have h0 : some famAB.root = some dd := hdd
      exact Option.some.inj h0
    rw [← hdr] at hpp
    have hev : evalPathExpr famAB.root ⟨true, [⟨true, .anyOf ["complexType"], some ("name", "A")⟩,
        ⟨false, .anyOf ["sequence"], none⟩,
        ⟨false, .anyOf ["element"], some ("name", "X")⟩]⟩ none = [[1, 0, 0]] := rfl
    rw [hev] at hpp
    simp only [List.mem_singleton] at hpp
    rw [hpp]
  | succ n =>
    simp [Family.docAt, famAB] at hdd

end XsdTV
